import Mathlib

/-!
Shallow embedding of the Smarttranslatestyle request-orchestration layer.

Client side (background script): the persistent translation cache
(`getCachedTranslation` / `setCachedTranslation`, 24-hour TTL, lazy purge),
the cache key construction, and the `chrome.runtime.onMessage` listener
(validation, per-kind timeout budget, the three request branches, error
normalisation).  The asynchronous parts are embedded denotationally: the
storage map, the clock and the single fetch outcome of a dispatch are an
explicit environment, and the listener returns the list of responses it
sent, the list of network calls it issued (with the timeout budget each
call was given), and the final storage state.

Server side (proxy handler): the action routing precedence, the
single-word / sentence classification of the analyze path, and the layered
JSON recovery applied to the model output (fence stripping, direct parse,
brace extraction, parse failure).  JavaScript `JSON.parse` is embedded as
a fuel-based validity parser over character lists; JS values that only
matter through their truthiness are embedded as `Option String` / `JSVal`
with an explicit truthiness function.  Whitespace is modelled by its ASCII
fragment.
-/

namespace STS

/-- ASCII fragment of the JS whitespace class (regex backslash-s and
`String.prototype.trim`). -/
def isWsJs (c : Char) : Bool :=
  c = ' ' || c = '\t' || c = '\n' || c = '\r' || c = '\x0b' || c = '\x0c'

/-- Drop trailing characters satisfying `p`. -/
def dropRightWhileP (p : Char → Bool) (l : List Char) : List Char :=
  (l.reverse.dropWhile p).reverse

/-- JS `String.prototype.trim` on the character list. -/
def trimChars (l : List Char) : List Char :=
  dropRightWhileP isWsJs (l.dropWhile isWsJs)

/-- JS `String(x).trim()` on strings. -/
def jsTrim (s : String) : String := ⟨trimChars s.data⟩

/-- JS truthiness for an optional string value, keeping the value when
truthy (the idioms `x || fallback` and `if (x)`): `undefined`/`null` and
the empty string are falsy. -/
def truthyStr : Option String → Option String
  | some s => if s = "" then none else some s
  | none => none

/-! ## The persistent translation cache (background script lines 16-45) -/

/-- One stored cache entry: the translation and its write timestamp. -/
structure CacheEntry where
  translation : String
  ts : Nat
deriving DecidableEq

/-- The stored cache object, an association of keys to entries. -/
abbrev CacheMap := List (String × CacheEntry)

/-- `CACHE_TTL_MS = 24 * 60 * 60 * 1000` (24 hours). -/
def CACHE_TTL_MS : Nat := 24 * 60 * 60 * 1000

/-- JS object property read `map[key]`. -/
def mapLookup (m : CacheMap) (k : String) : Option CacheEntry :=
  match m with
  | [] => none
  | (k', e) :: rest => if k' = k then some e else mapLookup rest k

/-- JS property write `map[key] = e` (keys are unique in an object). -/
def mapInsert (m : CacheMap) (k : String) (e : CacheEntry) : CacheMap :=
  match m with
  | [] => [(k, e)]
  | (k', e') :: rest => if k' = k then (k, e) :: rest else (k', e') :: mapInsert rest k e

/-- JS `delete map[key]`. -/
def mapErase (m : CacheMap) (k : String) : CacheMap :=
  match m with
  | [] => []
  | (k', e') :: rest => if k' = k then mapErase rest k else (k', e') :: mapErase rest k

/-- `getCachedTranslation(key)`: read the entry; an absent key yields
`null`; an entry older than the TTL is deleted (the map is written back)
and `null` is returned; otherwise the stored translation is returned.
The result is the resolved value together with the storage state after
the read. -/
def getCachedTranslation (now : Nat) (m : CacheMap) (key : String) :
    Option String × CacheMap :=
  match mapLookup m key with
  | none => (none, m)
  | some entry =>
    if now - entry.ts > CACHE_TTL_MS then (none, mapErase m key)
    else (some entry.translation, m)

/-- `setCachedTranslation(key, translation)`: overwrite the entry with a
fresh timestamp. -/
def setCachedTranslation (now : Nat) (m : CacheMap) (key translation : String) :
    CacheMap :=
  mapInsert m key ⟨translation, now⟩

/-- The translate-branch cache key: `t:${target}|${text}` (line 76). -/
def cacheKey (target text : String) : String :=
  "t:" ++ target ++ "|" ++ text

/-! ## The message listener (background script lines 47-177) -/

/-- An incoming runtime message with a present `type` field; `type = ""`
stands for a falsy `message.type` (missing or empty). -/
structure MsgData where
  type : String
  text : Option String
  target : Option String
  voice : Option String
deriving DecidableEq

/-- The JSON body the proxy may return, restricted to the fields the
listener inspects; each is `none` when absent and its JS truthiness is
`truthyStr`. -/
structure ProxyJson where
  translation : Option String
  error : Option String
  analysis : Option String
  audio : Option String
  mime : Option String
deriving DecidableEq

/-- The outcome of the single fetch a dispatch may perform: the abort
fired by the timeout timer, another transport exception, or an HTTP
response with its `ok` flag, status, body text (after the best-effort
`resp.text()`) and JSON body (`null` when `resp.json()` rejected). -/
inductive FetchOutcome
  | abort
  | netError (msg : String)
  | response (ok : Bool) (status : Nat) (bodyText : String) (json : Option ProxyJson)
deriving DecidableEq

/-- The request body of an issued network call. -/
inductive FetchBody
  | translateBody (text target : String)
  | analyzeBody (text : String)
  | ttsBody (text : String) (voice : Option String)
deriving DecidableEq

/-- A network call issued by the listener, with the timeout budget its
abort timer was armed with. -/
structure FetchCall where
  timeoutMs : Nat
  body : FetchBody
deriving DecidableEq

/-- The environment of one dispatch: storage state, clock, fetch outcome,
and whether the storage read / the best-effort cache write reject. -/
structure Env where
  store : CacheMap
  now : Nat
  fetch : FetchOutcome
  cacheReadFails : Bool
  cacheWriteFails : Bool
deriving DecidableEq

/-- A structured response passed to `sendResponse`, one constructor per
response shape the listener can produce. -/
inductive Resp
  | translationResp (text : String) (cached : Bool)
  | analysisResp (a : String)
  | audioResp (a : String) (mime : String)
  | errEmptyText
  | errTextTooLong
  | errUnknownType
  | errTimeout
  | errRequestFailed (msg : String)
  | errProxyHttp (status : Nat) (msg : String)
  | errProxyDetail (d : ProxyJson)
  | errProxyNoTranslation (d : ProxyJson)
  | errInvalidResponse
  | errNoAnalysis (raw : Option ProxyJson)
  | errNoAudio (raw : Option ProxyJson)
deriving DecidableEq

/-- What one dispatch did: the responses sent, the network calls issued,
and the final storage state. -/
structure DispatchResult where
  responses : List Resp
  calls : List FetchCall
  cache : CacheMap
deriving DecidableEq

/-- The `TRANSLATE_TEXT` branch (lines 73-114): default the target to
`"it"`, consult the cache (a rejected read is treated as a miss), answer
from the cache on a truthy hit, otherwise fetch; on a truthy
`data.translation` write the cache (best-effort) and respond, else fall
through `data.error` to the no-translation error. -/
def translateBranch (m : MsgData) (text : String) (timeoutMs : Nat) (env : Env) :
    DispatchResult :=
  let target := (truthyStr m.target).getD "it"
  let key := cacheKey target text
  let readRes :=
    if env.cacheReadFails then (none, env.store)
    else getCachedTranslation env.now env.store key
  match truthyStr readRes.1 with
  | some c => ⟨[.translationResp c true], [], readRes.2⟩
  | none =>
    let call : FetchCall := ⟨timeoutMs, .translateBody text target⟩
    match env.fetch with
    | .abort => ⟨[.errTimeout], [call], readRes.2⟩
    | .netError msg => ⟨[.errRequestFailed msg], [call], readRes.2⟩
    | .response ok status bodyText json =>
      if ok = false then ⟨[.errProxyHttp status bodyText], [call], readRes.2⟩
      else
        match json with
        | none => ⟨[.errInvalidResponse], [call], readRes.2⟩
        | some d =>
          match truthyStr d.translation with
          | some tr =>
            let store2 :=
              if env.cacheWriteFails then readRes.2
              else setCachedTranslation env.now readRes.2 key tr
            ⟨[.translationResp tr false], [call], store2⟩
          | none =>
            if (truthyStr d.error).isSome then ⟨[.errProxyDetail d], [call], readRes.2⟩
            else ⟨[.errProxyNoTranslation d], [call], readRes.2⟩

/-- The `ANALYZE_TEXT` branch (lines 116-135). -/
def analyzeBranch (text : String) (timeoutMs : Nat) (env : Env) : DispatchResult :=
  let call : FetchCall := ⟨timeoutMs, .analyzeBody text⟩
  match env.fetch with
  | .abort => ⟨[.errTimeout], [call], env.store⟩
  | .netError msg => ⟨[.errRequestFailed msg], [call], env.store⟩
  | .response ok status bodyText json =>
    if ok = false then ⟨[.errProxyHttp status bodyText], [call], env.store⟩
    else
      match json with
      | none => ⟨[.errNoAnalysis none], [call], env.store⟩
      | some d =>
        match truthyStr d.analysis with
        | some a => ⟨[.analysisResp a], [call], env.store⟩
        | none => ⟨[.errNoAnalysis (some d)], [call], env.store⟩

/-- The `GET_TTS` branch (lines 137-158). -/
def ttsBranch (m : MsgData) (text : String) (timeoutMs : Nat) (env : Env) :
    DispatchResult :=
  let voice := truthyStr m.voice
  let call : FetchCall := ⟨timeoutMs, .ttsBody text voice⟩
  match env.fetch with
  | .abort => ⟨[.errTimeout], [call], env.store⟩
  | .netError msg => ⟨[.errRequestFailed msg], [call], env.store⟩
  | .response ok status bodyText json =>
    if ok = false then ⟨[.errProxyHttp status bodyText], [call], env.store⟩
    else
      match json with
      | none => ⟨[.errNoAudio none], [call], env.store⟩
      | some d =>
        match truthyStr d.audio with
        | some a => ⟨[.audioResp a ((truthyStr d.mime).getD "audio/mpeg")], [call], env.store⟩
        | none => ⟨[.errNoAudio (some d)], [call], env.store⟩

/-- The `chrome.runtime.onMessage` listener.  A falsy message or a falsy
`message.type` returns at once without responding (line 48).  Otherwise
the text is coerced and trimmed; an empty text answers `empty_text`, a
text longer than 10000 answers `text_too_long`; then the timeout budget
is `25000` for `GET_TTS` and `15000` otherwise and the matching branch
runs; an unrecognized type answers `unknown_message_type`. -/
def listener (message : Option MsgData) (env : Env) : DispatchResult :=
  match message with
  | none => ⟨[], [], env.store⟩
  | some m =>
    if m.type = "" then ⟨[], [], env.store⟩
    else
      let text := jsTrim (m.text.getD "")
      if text = "" then ⟨[.errEmptyText], [], env.store⟩
      else if text.length > 10000 then ⟨[.errTextTooLong], [], env.store⟩
      else
        let timeoutMs := if m.type = "GET_TTS" then 25000 else 15000
        if m.type = "TRANSLATE_TEXT" then translateBranch m text timeoutMs env
        else if m.type = "ANALYZE_TEXT" then analyzeBranch text timeoutMs env
        else if m.type = "GET_TTS" then ttsBranch m text timeoutMs env
        else ⟨[.errUnknownType], [], env.store⟩

/-! ## Proxy handler: action routing and analyze classification
(`translate.js`) -/

/-- A JS value as far as the handler's checks observe it: strict equality
with a string literal and truthiness. -/
inductive JSVal
  | vUndef
  | vNull
  | vBool (b : Bool)
  | vNum (n : Int)
  | vStr (s : String)
deriving DecidableEq

/-- JS truthiness of a `JSVal`. -/
def truthyJS : JSVal → Bool
  | .vUndef => false
  | .vNull => false
  | .vBool b => b
  | .vNum n => !(n = 0)
  | .vStr s => !(s = "")

/-- The three handler paths. -/
inductive HandlerPath
  | analyzePath
  | synthesizePath
  | translatePath
deriving DecidableEq

/-- The handler's action selection for a valid POST payload:
`action === 'analyze'` (line 42) takes the analyze path, else a truthy
`tts` (line 172) takes the synthesize path, else the translate path. -/
def selectPath (action tts : JSVal) : HandlerPath :=
  if action = .vStr "analyze" then .analyzePath
  else if truthyJS tts then .synthesizePath
  else .translatePath

/-- JS `trimmed.split(/\s+/)` via the accumulating scan: a whitespace run
closes the current field and opens a new one; the split of the empty
string is the one empty field.  The recursion is bounded by fuel; every
step consumes at least one character, so fuel `length + 1` suffices. -/
def splitWsAux : Nat → List Char → List Char → List (List Char)
  | 0, _, cur => [cur.reverse]
  | fuel + 1, l, cur =>
    match l with
    | [] => [cur.reverse]
    | c :: rest =>
      if isWsJs c then cur.reverse :: splitWsAux fuel (rest.dropWhile isWsJs) []
      else splitWsAux fuel rest (c :: cur)

/-- JS `s.split(/\s+/)`. -/
def splitWs (l : List Char) : List (List Char) := splitWsAux (l.length + 1) l []

/-- The terminal-punctuation test `/[.!?;]/.test(trimmed)`. -/
def hasTermPunct (l : List Char) : Bool :=
  l.any (fun c => c = '.' || c = '!' || c = '?' || c = ';')

/-- `isSingleWord` (translate.js lines 44-46): the trimmed text splits
into exactly one field and carries no terminal punctuation. -/
def isSingleWord (text : String) : Bool :=
  let trimmed := trimChars text.data
  (splitWs trimmed).length = 1 && !hasTermPunct trimmed

/-- The number of whitespace-delimited tokens of a text, in the
specification's sense: the maximal nonempty whitespace-free runs, i.e.
the nonempty fields of the whitespace split. -/
def specTokenCount (l : List Char) : Nat :=
  ((splitWs l).filter (fun t => !t.isEmpty)).length

/-! ## Model-output JSON recovery (translate.js lines 113-146)

`JSON.parse` is embedded as a validity parser over character lists: each
token parser returns the unconsumed rest on success.  The mutual value /
object-members / array-elements recursion is bounded by fuel; every
recursive step consumes at least one character first, so fuel
`length + 1` never runs out on well-formed input. -/

/-- JSON whitespace (space, tab, line feed, carriage return). -/
def isWsJson (c : Char) : Bool :=
  c = ' ' || c = '\t' || c = '\n' || c = '\r'

/-- Skip JSON whitespace. -/
def skipWsJson (l : List Char) : List Char := l.dropWhile isWsJson

/-- The opening brace character. -/
def braceOpen : Char := '\x7b'

/-- The closing brace character. -/
def braceClose : Char := '\x7d'

/-- The backtick character of a code fence. -/
def fenceChar : Char := Char.ofNat 96

/-- Decimal digit. -/
def isDigitC (c : Char) : Bool := '0' ≤ c && c ≤ '9'

/-- Hexadecimal digit. -/
def isHexC (c : Char) : Bool :=
  isDigitC c || ('a' ≤ c && c ≤ 'f') || ('A' ≤ c && c ≤ 'F')

/-- Consume the expected literal characters. -/
def expectChars : List Char → List Char → Option (List Char)
  | [], l => some l
  | e :: es, c :: l => if c = e then expectChars es l else none
  | _ :: _, [] => none

/-- Parse the body of a JSON string after the opening quote, through the
closing quote; escapes and the control-character restriction follow the
JSON grammar. -/
def parseStringBody : Nat → List Char → Option (List Char)
  | 0, _ => none
  | _ + 1, [] => none
  | fuel + 1, c :: rest =>
    if c = '"' then some rest
    else if c = '\\' then
      match rest with
      | [] => none
      | e :: rest2 =>
        if e = '"' || e = '\\' || e = '/' || e = 'b' || e = 'f' || e = 'n'
            || e = 'r' || e = 't' then
          parseStringBody fuel rest2
        else if e = 'u' then
          match rest2 with
          | h1 :: h2 :: h3 :: h4 :: rest3 =>
            if isHexC h1 && isHexC h2 && isHexC h3 && isHexC h4 then
              parseStringBody fuel rest3
            else none
          | _ => none
        else none
    else if c.toNat < 32 then none
    else parseStringBody fuel rest

/-- One or more digits; returns the rest after the run. -/
def parseDigits1 : List Char → Option (List Char)
  | c :: rest => if isDigitC c then some (rest.dropWhile isDigitC) else none
  | [] => none

/-- Optional exponent part of a JSON number. -/
def parseExpPart (l : List Char) : Option (List Char) :=
  match l with
  | c :: rest =>
    if c = 'e' || c = 'E' then
      let rest2 :=
        match rest with
        | s :: t => if s = '+' || s = '-' then t else s :: t
        | [] => []
      parseDigits1 rest2
    else some l
  | [] => some []

/-- Optional fraction, then optional exponent, of a JSON number. -/
def parseFracExp (l : List Char) : Option (List Char) :=
  match l with
  | c :: rest =>
    if c = '.' then
      match parseDigits1 rest with
      | some r => parseExpPart r
      | none => none
    else parseExpPart l
  | [] => some []

/-- A JSON number token: optional minus, integer part without leading
zeros, optional fraction and exponent. -/
def parseNumberTok (l : List Char) : Option (List Char) :=
  let l1 :=
    match l with
    | c :: rest => if c = '-' then rest else c :: rest
    | [] => []
  match l1 with
  | c :: rest =>
    if c = '0' then parseFracExp rest
    else if isDigitC c then parseFracExp (rest.dropWhile isDigitC)
    else none
  | [] => none

mutual

/-- Parse one JSON value (after skipping whitespace). -/
def parseValue : Nat → List Char → Option (List Char)
  | 0, _ => none
  | fuel + 1, l =>
    match skipWsJson l with
    | [] => none
    | c :: rest =>
      if c = '"' then parseStringBody (fuel + 1) rest
      else if c = braceOpen then
        match skipWsJson rest with
        | d :: rest2 =>
          if d = braceClose then some rest2 else parseMembers fuel (d :: rest2)
        | [] => none
      else if c = '[' then
        match skipWsJson rest with
        | d :: rest2 =>
          if d = ']' then some rest2 else parseElems fuel (d :: rest2)
        | [] => none
      else if c = 't' then expectChars ['r', 'u', 'e'] rest
      else if c = 'f' then expectChars ['a', 'l', 's', 'e'] rest
      else if c = 'n' then expectChars ['u', 'l', 'l'] rest
      else if c = '-' || isDigitC c then parseNumberTok (c :: rest)
      else none

/-- Parse the members of a JSON object after the opening brace, through
the closing brace. -/
def parseMembers : Nat → List Char → Option (List Char)
  | 0, _ => none
  | fuel + 1, l =>
    match skipWsJson l with
    | c :: rest =>
      if c = '"' then
        match parseStringBody (fuel + 1) rest with
        | none => none
        | some r1 =>
          match skipWsJson r1 with
          | d :: r2 =>
            if d = ':' then
              match parseValue fuel r2 with
              | none => none
              | some r3 =>
                match skipWsJson r3 with
                | e :: r4 =>
                  if e = ',' then parseMembers fuel r4
                  else if e = braceClose then some r4
                  else none
                | [] => none
            else none
          | [] => none
      else none
    | [] => none

/-- Parse the elements of a JSON array after the opening bracket, through
the closing bracket. -/
def parseElems : Nat → List Char → Option (List Char)
  | 0, _ => none
  | fuel + 1, l =>
    match parseValue fuel l with
    | none => none
    | some r =>
      match skipWsJson r with
      | c :: r2 =>
        if c = ',' then parseElems fuel r2
        else if c = ']' then some r2
        else none
      | [] => none

end

/-- `JSON.parse(s)` succeeds: one value, then only whitespace. -/
def jsonOk (l : List Char) : Bool :=
  match parseValue (l.length + 1) l with
  | some rest => (skipWsJson rest).isEmpty
  | none => false

/-- Lower-case an ASCII letter (the `i` regex flag). -/
def asciiLower (c : Char) : Char :=
  if 'A' ≤ c && c ≤ 'Z' then Char.ofNat (c.toNat + 32) else c

/-- The first replace of line 117, of regex shape `^ ``` (json)? \s*`
with the `i` flag: strip a leading fence of three backticks, an optional
case-insensitive `json` tag, and the whitespace after them. -/
def stripLeadingFence (l : List Char) : List Char :=
  match l with
  | a :: b :: c :: rest =>
    if a = fenceChar && b = fenceChar && c = fenceChar then
      let rest2 :=
        match rest with
        | x1 :: x2 :: x3 :: x4 :: r2 =>
          if asciiLower x1 = 'j' && asciiLower x2 = 's' && asciiLower x3 = 'o'
              && asciiLower x4 = 'n' then r2
          else rest
        | _ => rest
      rest2.dropWhile isWsJs
    else l
  | _ => l

/-- The second replace, of regex shape `fence \s* $` with the `i` flag:
remove a trailing fence of three backticks together with the whitespace
after it; if the text does not end that way it is unchanged. -/
def stripTrailingFence (l : List Char) : List Char :=
  let r := l.reverse.dropWhile isWsJs
  match r with
  | a :: b :: c :: rest =>
    if a = fenceChar && b = fenceChar && c = fenceChar then rest.reverse else l
  | _ => l

/-- `content.match(/\x7b[\s\S]*\x7d/)`: the greedy match runs from the
first opening brace to the last closing brace of the whole text, when
the latter comes after the former. -/
def extractJson (l : List Char) : Option (List Char) :=
  match l.findIdx? (fun c => c = braceOpen), l.reverse.findIdx? (fun c => c = braceClose) with
  | some i, some jr =>
    let j := l.length - 1 - jr
    if i < j then some ((l.drop i).take (j - i + 1)) else none
  | _, _ => none

/-- Outcome of the layered recovery: a successfully parsed text (the
cleaned text or the extracted substring), or the failure response
carrying the cleaned raw text. -/
inductive ParseOutcome
  | parsedJson (txt : List Char)
  | parseFailure (raw : List Char)
deriving DecidableEq

/-- Trim, then strip the leading and trailing fence markers
(lines 114-117). -/
def cleanContent (content : String) : List Char :=
  stripTrailingFence (stripLeadingFence (trimChars content.data))

/-- The layered recovery of lines 113-146: clean the text, attempt the
direct parse, on failure attempt the greedy brace extraction, and when
both fail return the failure carrying the cleaned text. -/
def parseModelOutput (content : String) : ParseOutcome :=
  let cleaned := cleanContent content
  if jsonOk cleaned then .parsedJson cleaned
  else
    match extractJson cleaned with
    | some sub => if jsonOk sub then .parsedJson sub else .parseFailure cleaned
    | none => .parseFailure cleaned

/-! ## Theorems -/

theorem stringDataInj {a b : String} (h : a.data = b.data) : a = b := by
  cases a with
  | mk d1 => cases b with
    | mk d2 => exact congrArg String.mk h

theorem mapLookup_insert_self (m : CacheMap) (k : String) (e : CacheEntry) :
    mapLookup (mapInsert m k e) k = some e := by
  induction m with
  | nil => simp [mapInsert, mapLookup]
  | cons p rest ih =>
    obtain ⟨k', e'⟩ := p
    by_cases h : k' = k
    · simp [mapInsert, mapLookup, h]
    · simp [mapInsert, mapLookup, h, ih]

theorem mapLookup_erase_self (m : CacheMap) (k : String) :
    mapLookup (mapErase m k) k = none := by
  induction m with
  | nil => simp [mapErase, mapLookup]
  | cons p rest ih =>
    obtain ⟨k', e'⟩ := p
    by_cases h : k' = k
    · simp [mapErase, h, ih]
    · simp [mapErase, mapLookup, h, ih]

theorem mapLookup_erase_ne (m : CacheMap) (k k' : String) (h : k' ≠ k) :
    mapLookup (mapErase m k) k' = mapLookup m k' := by
  induction m with
  | nil => simp [mapErase]
  | cons p rest ih =>
    obtain ⟨k0, e0⟩ := p
    by_cases h0 : k0 = k
    · simp [mapErase, mapLookup, h0, ih, Ne.symm h]
    · by_cases h1 : k0 = k'
      · simp [mapErase, mapLookup, h0, h1, h]
      · simp [mapErase, mapLookup, h0, h1, ih]

/-- C4: the cache round-trip.  A `put` followed by a `get` of the same
key within the 24-hour TTL yields the stored translation; a `get` whose
stored entry is older than the TTL yields absent and, as a side effect
of the read, the entry is gone from the written-back store. -/
theorem cache_roundtrip_and_expiry :
    (∀ (k v : String) (m : CacheMap) (t0 t1 : Nat), t1 - t0 ≤ CACHE_TTL_MS →
      (getCachedTranslation t1 (setCachedTranslation t0 m k v) k).1 = some v) ∧
    (∀ (k : String) (m : CacheMap) (e : CacheEntry) (t : Nat),
      mapLookup m k = some e → t - e.ts > CACHE_TTL_MS →
      (getCachedTranslation t m k).1 = none ∧
      mapLookup (getCachedTranslation t m k).2 k = none) := by
  constructor
  · intro k v m t0 t1 h
    unfold getCachedTranslation setCachedTranslation
    rw [mapLookup_insert_self]
    simp [Nat.not_lt.mpr h]
  · intro k m e t hl he
    unfold getCachedTranslation
    rw [hl]
    simp [he, mapLookup_erase_self]

/-- Witness for C4 at a concrete store, key and clock. -/
theorem cache_roundtrip_and_expiry_witness :
    (getCachedTranslation 5 (setCachedTranslation 0 [] "k" "ciao") "k").1 = some "ciao" ∧
    ((getCachedTranslation (CACHE_TTL_MS + 1) [("k", ⟨"ciao", 0⟩)] "k").1 = none ∧
      mapLookup (getCachedTranslation (CACHE_TTL_MS + 1) [("k", ⟨"ciao", 0⟩)] "k").2 "k"
        = none) :=
  ⟨cache_roundtrip_and_expiry.1 "k" "ciao" [] 0 5 (by decide),
   cache_roundtrip_and_expiry.2 "k" [("k", ⟨"ciao", 0⟩)] ⟨"ciao", 0⟩ (CACHE_TTL_MS + 1)
     (by decide) (by decide)⟩

/-- C9: the lazy purge is frame-preserving.  When a read of key `k`
finds an expired entry, the written-back store maps every other key to
exactly what it mapped to before. -/
theorem cache_expiry_frame :
    ∀ (m : CacheMap) (k k' : String) (e : CacheEntry) (t : Nat),
      mapLookup m k = some e → t - e.ts > CACHE_TTL_MS → k' ≠ k →
      mapLookup (getCachedTranslation t m k).2 k' = mapLookup m k' := by
  intro m k k' e t hl he hne
  unfold getCachedTranslation
  rw [hl]
  simp [he, mapLookup_erase_ne m k k' hne]

/-- Witness for C9 at a concrete two-entry store. -/
theorem cache_expiry_frame_witness :
    mapLookup
      (getCachedTranslation (CACHE_TTL_MS + 1)
        [("k", ⟨"ciao", 0⟩), ("j", ⟨"x", 3⟩)] "k").2 "j"
      = mapLookup [("k", ⟨"ciao", 0⟩), ("j", ⟨"x", 3⟩)] "j" :=
  cache_expiry_frame [("k", ⟨"ciao", 0⟩), ("j", ⟨"x", 3⟩)] "k" "j" ⟨"ciao", 0⟩
    (CACHE_TTL_MS + 1) (by decide) (by decide) (by decide)

theorem append_pipe_inj :
    ∀ (t1 t2 s1 s2 : List Char), '|' ∉ t1 → '|' ∉ t2 →
      t1 ++ '|' :: s1 = t2 ++ '|' :: s2 → t1 = t2 ∧ s1 = s2 := by
  intro t1
  induction t1 with
  | nil =>
    intro t2 s1 s2 h1 h2 h
    cases t2 with
    | nil => simpa using h
    | cons c t2' =>
      simp only [List.nil_append, List.cons_append, List.cons.injEq] at h
      exact absurd (h.1 ▸ List.mem_cons_self c t2') h2
  | cons c t1' ih =>
    intro t2 s1 s2 h1 h2 h
    cases t2 with
    | nil =>
      simp only [List.cons_append, List.nil_append, List.cons.injEq] at h
      exact absurd (h.1 ▸ List.mem_cons_self c t1') h1
    | cons d t2' =>
      simp only [List.cons_append, List.cons.injEq] at h
      obtain ⟨rfl, h'⟩ := h
      have hm1 : '|' ∉ t1' := fun hc => h1 (List.mem_cons_of_mem _ hc)
      have hm2 : '|' ∉ t2' := fun hc => h2 (List.mem_cons_of_mem _ hc)
      obtain ⟨ha, hb⟩ := ih t2' s1 s2 hm1 hm2 h'
      exact ⟨by rw [ha], hb⟩

/-- C5 (amended): on targets that do not contain the separator character,
the cache key determines target and text — two translate requests map to
the same key iff their target and exact trimmed text coincide (the
operation kind is a constant prefix, since only the translate branch
builds keys). -/
theorem cacheKey_eq_iff (t1 s1 t2 s2 : String)
    (h1 : '|' ∉ t1.data) (h2 : '|' ∉ t2.data) :
    cacheKey t1 s1 = cacheKey t2 s2 ↔ t1 = t2 ∧ s1 = s2 := by
  constructor
  · intro h
    have hd : (cacheKey t1 s1).data = (cacheKey t2 s2).data := by rw [h]
    simp only [cacheKey, String.data_append] at hd
    have hd' : t1.data ++ '|' :: s1.data = t2.data ++ '|' :: s2.data := by
      simpa [List.append_assoc] using hd
    obtain ⟨ha, hb⟩ := append_pipe_inj _ _ _ _ h1 h2 hd'
    exact ⟨stringDataInj ha, stringDataInj hb⟩
  · rintro ⟨rfl, rfl⟩
    rfl

/-- Counterexample to C5 as stated: the key construction is not
injective on the pair of target and text — a target containing the
separator collides with a different pair. -/
theorem cacheKey_collision :
    cacheKey "a|b" "c" = cacheKey "a" "b|c" ∧
      ¬(("a|b" : String) = "a" ∧ ("c" : String) = "b|c") := by
  constructor
  · rfl
  · decide

/-- Witness for C5 (amended) at concrete pipe-free targets. -/
theorem cacheKey_eq_iff_witness :
    ("it" : String) = "it" ∧ ("hello" : String) = "hello" :=
  (cacheKey_eq_iff "it" "hello" "it" "hello" (by decide) (by decide)).mp (by decide)

theorem translateBranch_spec (m : MsgData) (text : String) (t : Nat) (env : Env) :
    (translateBranch m text t env).responses.length = 1 ∧
    (∀ c ∈ (translateBranch m text t env).calls, c.timeoutMs = t) ∧
    (env.fetch = .abort → (translateBranch m text t env).calls ≠ [] →
      (translateBranch m text t env).responses = [.errTimeout]) ∧
    (∀ msg, env.fetch = .netError msg → (translateBranch m text t env).calls ≠ [] →
      (translateBranch m text t env).responses = [.errRequestFailed msg]) := by
  unfold translateBranch
  repeat' (first | split | simp only [truthyStr])
  all_goals refine ⟨by simp, by simp, ?_, ?_⟩ <;> intros <;> simp_all

theorem analyzeBranch_spec (text : String) (t : Nat) (env : Env) :
    (analyzeBranch text t env).responses.length = 1 ∧
    (∀ c ∈ (analyzeBranch text t env).calls, c.timeoutMs = t) ∧
    (env.fetch = .abort → (analyzeBranch text t env).responses = [.errTimeout]) ∧
    (∀ msg, env.fetch = .netError msg →
      (analyzeBranch text t env).responses = [.errRequestFailed msg]) := by
  unfold analyzeBranch
  repeat' (first | split | simp only [truthyStr])
  all_goals refine ⟨by simp, by simp, ?_, ?_⟩ <;> intros <;> simp_all

theorem ttsBranch_spec (m : MsgData) (text : String) (t : Nat) (env : Env) :
    (ttsBranch m text t env).responses.length = 1 ∧
    (∀ c ∈ (ttsBranch m text t env).calls, c.timeoutMs = t) ∧
    (env.fetch = .abort → (ttsBranch m text t env).responses = [.errTimeout]) ∧
    (∀ msg, env.fetch = .netError msg →
      (ttsBranch m text t env).responses = [.errRequestFailed msg]) := by
  unfold ttsBranch
  repeat' (first | split | simp only [truthyStr])
  all_goals refine ⟨by simp, by simp, ?_, ?_⟩ <;> intros <;> simp_all

/-- C1 (amended): for every message whose `type` field is truthy the
listener sends exactly one structured response, whatever the cache
state, clock and fetch outcome; a falsy message, or a message with a
missing or falsy `type`, is dropped at line 48 and receives no response
at all. -/
theorem listener_single_response :
    ∀ (m : MsgData) (env : Env),
      (m.type ≠ "" → (listener (some m) env).responses.length = 1) ∧
      (m.type = "" → (listener (some m) env).responses = []) ∧
      (listener none env).responses = [] := by
  intro m env
  refine ⟨fun h => ?_, fun h => by simp [listener, h], rfl⟩
  simp only [listener, h, if_false, reduceIte]
  split
  · rfl
  · split
    · rfl
    · split
      · exact (translateBranch_spec _ _ _ _).1
      · split
        · exact (analyzeBranch_spec _ _ _).1
        · split
          · exact (ttsBranch_spec _ _ _ _).1
          · rfl

/-- Counterexample to C1 as stated: a null message, and a message whose
kind is missing (falsy `type`), are answered with no response at all —
the listener returns before calling `sendResponse`. -/
theorem listener_missing_kind_no_response :
    (listener none ⟨[], 0, .abort, false, false⟩).responses = [] ∧
    (listener (some ⟨"", some "hello", none, none⟩)
        ⟨[], 0, .abort, false, false⟩).responses = [] ∧
    ¬((listener (some ⟨"", some "hello", none, none⟩)
        ⟨[], 0, .abort, false, false⟩).responses.length = 1) :=
  ⟨rfl, rfl, by decide⟩

/-- Witness for C1 (amended) at a concrete message and environment. -/
theorem listener_single_response_witness :
    (listener (some ⟨"ANALYZE_TEXT", some "hi", none, none⟩)
        ⟨[], 0, .abort, false, false⟩).responses.length = 1 ∧
    (listener (some ⟨"", some "hi", none, none⟩)
        ⟨[], 0, .abort, false, false⟩).responses = [] :=
  ⟨(listener_single_response _ _).1 (by decide),
   (listener_single_response _ _).2.1 rfl⟩

/-- C2: local validation.  For a message with a truthy kind, an empty
trimmed text is answered `empty_text` and a trimmed text longer than
10000 characters is answered `text_too_long` (the emptiness check runs
first; both are mutually exclusive since an empty text has length 0);
in both cases the call list is empty — no network call is attempted —
and the store is untouched. -/
theorem validation_before_network :
    ∀ (m : MsgData) (env : Env), m.type ≠ "" →
      (jsTrim (m.text.getD "") = "" →
        listener (some m) env = ⟨[.errEmptyText], [], env.store⟩) ∧
      (jsTrim (m.text.getD "") ≠ "" → (jsTrim (m.text.getD "")).length > 10000 →
        listener (some m) env = ⟨[.errTextTooLong], [], env.store⟩) := by
  intro m env h
  constructor
  · intro ht
    simp [listener, h, ht]
  · intro ht hl
    simp [listener, h, ht, hl]

theorem trimChars_replicate_a (n : Nat) :
    trimChars (List.replicate n 'a') = List.replicate n 'a' := by
  have h1 : ∀ N : Nat, (List.replicate N 'a').dropWhile isWsJs = List.replicate N 'a' := by
    intro N
    cases N with
    | zero => rfl
    | succ k => simp [List.replicate_succ, List.dropWhile_cons, isWsJs]
  unfold trimChars dropRightWhileP
  rw [h1, List.reverse_replicate, h1, List.reverse_replicate]

/-- Witness for C2: a whitespace-only text and a 10001-character text
are rejected with the matching codes and zero network calls. -/
theorem validation_before_network_witness :
    listener (some ⟨"TRANSLATE_TEXT", some "   ", none, none⟩)
        ⟨[], 0, .abort, false, false⟩
      = ⟨[.errEmptyText], [], []⟩ ∧
    listener (some ⟨"TRANSLATE_TEXT", some ⟨List.replicate 10001 'a'⟩, none, none⟩)
        ⟨[], 0, .abort, false, false⟩
      = ⟨[.errTextTooLong], [], []⟩ := by
  constructor
  · exact (validation_before_network _ _ (by decide)).1 (by decide)
  · refine (validation_before_network _ _ (by decide)).2 ?_ ?_
    · show jsTrim (⟨List.replicate 10001 'a'⟩ : String) ≠ ""
      simp only [jsTrim, trimChars_replicate_a]
      intro hc
      have h2 : (List.replicate 10001 'a').length = ("" : String).data.length :=
        congrArg List.length (congrArg String.data hc)
      rw [List.length_replicate] at h2
      exact absurd h2 (by decide)
    · show (jsTrim (⟨List.replicate 10001 'a'⟩ : String)).length > 10000
      have h2 : (jsTrim (⟨List.replicate 10001 'a'⟩ : String)).length
          = (List.replicate 10001 'a').length := by
        simp only [jsTrim, trimChars_replicate_a]
        rfl
      rw [h2, List.length_replicate]
      decide

theorem listener_calls_spec (m : MsgData) (env : Env) :
    (∀ c ∈ (listener (some m) env).calls,
        c.timeoutMs = if m.type = "GET_TTS" then 25000 else 15000) ∧
    (env.fetch = .abort → (listener (some m) env).calls ≠ [] →
        (listener (some m) env).responses = [.errTimeout]) ∧
    (∀ msg, env.fetch = .netError msg → (listener (some m) env).calls ≠ [] →
        (listener (some m) env).responses = [.errRequestFailed msg]) := by
  by_cases h : m.type = ""
  · simp [listener, h]
  · simp only [listener, h, if_false, reduceIte]
    split
    · simp
    · split
      · simp
      · split
        · refine ⟨(translateBranch_spec _ _ _ _).2.1, fun ha => (translateBranch_spec _ _ _ _).2.2.1 ha,
            fun msg hn => (translateBranch_spec _ _ _ _).2.2.2 msg hn⟩
        · split
          · refine ⟨(analyzeBranch_spec _ _ _).2.1,
              fun ha _ => (analyzeBranch_spec _ _ _).2.2.1 ha,
              fun msg hn _ => (analyzeBranch_spec _ _ _).2.2.2 msg hn⟩
          · split
            · refine ⟨(ttsBranch_spec _ _ _ _).2.1,
                fun ha _ => (ttsBranch_spec _ _ _ _).2.2.1 ha,
                fun msg hn _ => (ttsBranch_spec _ _ _ _).2.2.2 msg hn⟩
            · simp

/-- C3: every network call the listener issues is armed with a 15000 ms
abort timer for the translate and analyze kinds and a 25000 ms one for
the synthesize kind; when the armed timer fires (the fetch outcome is
the abort) the single response is exactly the timeout failure, and any
other transport exception is answered with the request-failed failure
carrying its message. -/
theorem timeout_budget_and_failures :
    ∀ (m : MsgData) (env : Env),
      ((m.type = "TRANSLATE_TEXT" ∨ m.type = "ANALYZE_TEXT") →
        ∀ c ∈ (listener (some m) env).calls, c.timeoutMs = 15000) ∧
      (m.type = "GET_TTS" → ∀ c ∈ (listener (some m) env).calls, c.timeoutMs = 25000) ∧
      (env.fetch = .abort → (listener (some m) env).calls ≠ [] →
        (listener (some m) env).responses = [.errTimeout]) ∧
      (∀ msg, env.fetch = .netError msg → (listener (some m) env).calls ≠ [] →
        (listener (some m) env).responses = [.errRequestFailed msg]) := by
  intro m env
  obtain ⟨h1, h2, h3⟩ := listener_calls_spec m env
  refine ⟨?_, ?_, h2, h3⟩
  · intro hk c hc
    have := h1 c hc
    rcases hk with hk | hk <;> rw [hk] at this <;> rwa [if_neg (by decide)] at this
  · intro hk c hc
    have := h1 c hc
    rwa [hk, if_pos rfl] at this

/-- Witness for C3: a concrete translate dispatch whose fetch aborts is
answered with exactly the timeout failure, and its single call carried
the 15000 ms budget; a concrete synthesize dispatch carries 25000 ms. -/
theorem timeout_budget_and_failures_witness :
    ((listener (some ⟨"TRANSLATE_TEXT", some "hello", none, none⟩)
        ⟨[], 0, .abort, false, false⟩).responses = [.errTimeout]) ∧
    (∀ c ∈ (listener (some ⟨"TRANSLATE_TEXT", some "hello", none, none⟩)
        ⟨[], 0, .abort, false, false⟩).calls, c.timeoutMs = 15000) ∧
    (∀ c ∈ (listener (some ⟨"GET_TTS", some "hello", none, none⟩)
        ⟨[], 0, .abort, false, false⟩).calls, c.timeoutMs = 25000) :=
  ⟨(timeout_budget_and_failures _ _).2.2.1 rfl (by decide),
   (timeout_budget_and_failures _ _).1 (Or.inl rfl),
   (timeout_budget_and_failures _ _).2.1 rfl⟩

/-- C10: a stored cache entry holding the empty string as translation is
falsy, so the translate branch treats the lookup as a miss and issues
the network call instead of answering from the cache. -/
theorem empty_cached_translation_refetch :
    ∀ (m : MsgData) (env : Env) (ts : Nat),
      m.type = "TRANSLATE_TEXT" →
      env.cacheReadFails = false →
      jsTrim (m.text.getD "") ≠ "" →
      ¬((jsTrim (m.text.getD "")).length > 10000) →
      mapLookup env.store
          (cacheKey ((truthyStr m.target).getD "it") (jsTrim (m.text.getD ""))) =
        some ⟨"", ts⟩ →
      ¬(env.now - ts > CACHE_TTL_MS) →
      (listener (some m) env).calls.length = 1 ∧
      ∀ r ∈ (listener (some m) env).responses, r ≠ .translationResp "" true := by
  intro m env ts htype hcrf htext hlen hlook hfresh
  have hread : getCachedTranslation env.now env.store
      (cacheKey ((truthyStr m.target).getD "it") (jsTrim (m.text.getD ""))) =
      (some "", env.store) := by
    unfold getCachedTranslation
    rw [hlook]
    simp [hfresh]
  have hne : m.type ≠ "" := by rw [htype]; decide
  simp only [listener, hne, if_false, reduceIte, htext, hlen]
  rw [htype, if_pos rfl]
  unfold translateBranch
  simp only [hcrf, Bool.false_eq_true, if_false, reduceIte]
  rw [hread]
  cases hf : env.fetch with
  | abort => simp [truthyStr]
  | netError msg => simp [truthyStr]
  | response ok status bodyText json =>
    rcases json with _ | d
    · cases ok <;> simp [truthyStr]
    · obtain ⟨dtr, derr, dan, dau, dmi⟩ := d
      cases ok
      · simp [truthyStr]
      · rcases dtr with _ | s
        · cases derr <;> simp [truthyStr]
          split <;> simp
        · by_cases hs : s = ""
          · subst hs
            cases derr <;> simp [truthyStr]
            split <;> simp
          · simp [truthyStr, hs]

/-- Witness for C10: a concrete store whose entry for the request's key
holds the empty translation; the dispatch issues one network call and
never answers with the cached empty translation. -/
theorem empty_cached_translation_refetch_witness :
    (listener (some ⟨"TRANSLATE_TEXT", some "hello", none, none⟩)
        ⟨[("t:it|hello", ⟨"", 0⟩)], 0, .abort, false, false⟩).calls.length = 1 ∧
    ∀ r ∈ (listener (some ⟨"TRANSLATE_TEXT", some "hello", none, none⟩)
        ⟨[("t:it|hello", ⟨"", 0⟩)], 0, .abort, false, false⟩).responses,
      r ≠ .translationResp "" true :=
  empty_cached_translation_refetch _ _ 0 rfl rfl (by decide) (by decide)
    (by decide) (by decide)

/-- C7 (amended): the handler routes `action === 'analyze'` to the
analyze path; otherwise any truthy `tts` value — not only the boolean
`true` — takes the synthesize path, and only a falsy `tts` falls through
to the default translate path. -/
theorem route_precedence :
    ∀ (action tts : JSVal),
      (selectPath action tts = .analyzePath ↔ action = .vStr "analyze") ∧
      (action ≠ .vStr "analyze" →
        (selectPath action tts = .synthesizePath ↔ truthyJS tts = true)) ∧
      (action ≠ .vStr "analyze" →
        (selectPath action tts = .translatePath ↔ truthyJS tts = false)) := by
  intro action tts
  by_cases ha : action = .vStr "analyze"
  · simp [selectPath, ha]
  · by_cases ht : truthyJS tts <;> simp [selectPath, ha, ht]

/-- Counterexample to C7 as stated: a payload whose `tts` is the truthy
non-boolean number 1 takes the synthesize path, not the default
translate path the claim prescribes for every `tts` other than `true`. -/
theorem route_truthy_tts_counterexample :
    selectPath .vUndef (.vNum 1) = .synthesizePath ∧
    (JSVal.vNum 1) ≠ .vBool true ∧
    HandlerPath.synthesizePath ≠ .translatePath := by
  refine ⟨by decide, by decide, by decide⟩

/-- Witness for C7 (amended) at one payload per path. -/
theorem route_precedence_witness :
    selectPath (.vStr "analyze") (.vBool false) = .analyzePath ∧
    selectPath (.vStr "x") (.vStr "1") = .synthesizePath ∧
    selectPath .vNull .vUndef = .translatePath :=
  ⟨(route_precedence _ _).1.mpr rfl,
   ((route_precedence _ _).2.1 (by decide)).mpr (by decide),
   ((route_precedence _ _).2.2 (by decide)).mpr (by decide)⟩

theorem head?_dropWhile_not (p : Char → Bool) :
    ∀ (l : List Char) (c : Char), (l.dropWhile p).head? = some c → p c = false := by
  intro l
  induction l with
  | nil => intro c hc; simp [List.dropWhile] at hc
  | cons a t ih =>
    intro c hc
    by_cases hp : p a
    · rw [List.dropWhile_cons, if_pos hp] at hc
      exact ih c hc
    · rw [List.dropWhile_cons, if_neg hp] at hc
      simp only [List.head?_cons, Option.some.injEq] at hc
      subst hc
      simpa using hp

theorem getLast?_cons_of_ne_nil (a : Char) (l : List Char) (h : l ≠ []) :
    (a :: l).getLast? = l.getLast? := by
  cases l with
  | nil => exact absurd rfl h
  | cons b t => simp [List.getLast?_cons_cons]

theorem exists_getLast?_of_ne_nil :
    ∀ (l : List Char), l ≠ [] → ∃ c, l.getLast? = some c := by
  intro l
  induction l with
  | nil => intro h; exact absurd rfl h
  | cons a t ih =>
    intro _
    cases t with
    | nil => exact ⟨a, rfl⟩
    | cons b t' =>
      obtain ⟨c, hc⟩ := ih (by simp)
      exact ⟨c, by rw [List.getLast?_cons_cons]; exact hc⟩

theorem getLast?_mem_chars :
    ∀ (l : List Char) (c : Char), l.getLast? = some c → c ∈ l := by
  intro l
  induction l with
  | nil => intro c hc; simp at hc
  | cons a t ih =>
    intro c hc
    cases t with
    | nil =>
      simp only [List.getLast?_singleton, Option.some.injEq] at hc
      subst hc
      exact List.mem_singleton_self _
    | cons b t' =>
      rw [List.getLast?_cons_cons] at hc
      exact List.mem_cons_of_mem _ (ih c hc)

theorem getLast?_dropWhile (p : Char → Bool) :
    ∀ (l : List Char), l.dropWhile p ≠ [] →
      (l.dropWhile p).getLast? = l.getLast? := by
  intro l
  induction l with
  | nil => intro h; simp [List.dropWhile] at h
  | cons a t ih =>
    intro h
    by_cases hp : p a
    · rw [List.dropWhile_cons, if_pos hp] at h ⊢
      rw [ih h]
      have ht : t ≠ [] := by
        intro h0
        rw [h0] at h
        simp [List.dropWhile] at h
      exact (getLast?_cons_of_ne_nil a t ht).symm
    · rw [List.dropWhile_cons, if_neg hp]

theorem trimChars_head (l : List Char) (c : Char)
    (h : (trimChars l).head? = some c) : isWsJs c = false := by
  unfold trimChars dropRightWhileP at h
  rw [List.head?_reverse] at h
  have hne : (l.dropWhile isWsJs).reverse.dropWhile isWsJs ≠ [] := by
    intro h0
    rw [h0] at h
    simp at h
  rw [getLast?_dropWhile _ _ hne, List.getLast?_reverse] at h
  exact head?_dropWhile_not _ _ _ h

theorem trimChars_last (l : List Char) (c : Char)
    (h : (trimChars l).getLast? = some c) : isWsJs c = false := by
  unfold trimChars dropRightWhileP at h
  rw [List.getLast?_reverse] at h
  exact head?_dropWhile_not _ _ _ h

theorem splitWsAux_fields_ne_nil :
    ∀ (fuel : Nat) (l cur : List Char), l.length < fuel →
      (l = [] → cur ≠ []) →
      (∀ c, l.head? = some c → isWsJs c = true → cur ≠ []) →
      (∀ c, l.getLast? = some c → isWsJs c = false) →
      ∀ f ∈ splitWsAux fuel l cur, f ≠ [] := by
  intro fuel
  induction fuel with
  | zero => intro l cur hf; exact absurd hf (Nat.not_lt_zero _)
  | succ n ih =>
    intro l cur hf h1 h2 h3
    cases l with
    | nil =>
      intro f hfm
      simp only [splitWsAux, List.mem_singleton] at hfm
      subst hfm
      simpa using h1 rfl
    | cons c rest =>
      by_cases hw : isWsJs c
      · intro f hfm
        simp only [splitWsAux, hw, if_true, List.mem_cons] at hfm
        rcases hfm with rfl | hfm
        · simpa using h2 c rfl hw
        · have hrest_ne : rest.dropWhile isWsJs ≠ [] := by
            intro h0
            have hall : ∀ x ∈ rest, isWsJs x = true := by
              intro x hx
              exact List.dropWhile_eq_nil_iff.mp h0 x hx
            obtain ⟨e, he⟩ := exists_getLast?_of_ne_nil (c :: rest) (by simp)
            have hws_e : isWsJs e = false := h3 e he
            cases rest with
            | nil =>
              simp only [List.getLast?_singleton, Option.some.injEq] at he
              subst he
              rw [hw] at hws_e
              exact absurd hws_e (by simp)
            | cons d rest2 =>
              rw [getLast?_cons_of_ne_nil c _ (by simp)] at he
              have hmem : e ∈ d :: rest2 := getLast?_mem_chars _ _ he
              rw [hall e hmem] at hws_e
              exact absurd hws_e (by simp)
          have h3' : ∀ c', (rest.dropWhile isWsJs).getLast? = some c' →
              isWsJs c' = false := by
            intro c' hc'
            rw [getLast?_dropWhile _ _ hrest_ne] at hc'
            have hrne : rest ≠ [] := by
              intro h0
              rw [h0] at hrest_ne
              simp [List.dropWhile] at hrest_ne
            rw [← getLast?_cons_of_ne_nil c rest hrne] at hc'
            exact h3 c' hc'
          have h2' : ∀ c', (rest.dropWhile isWsJs).head? = some c' →
              isWsJs c' = true → ([] : List Char) ≠ [] := by
            intro c' hc' hw'
            have := head?_dropWhile_not isWsJs rest c' hc'
            rw [this] at hw'
            exact absurd hw' (by simp)
          have h1' : rest.dropWhile isWsJs = [] → ([] : List Char) ≠ [] :=
            fun h0 => absurd h0 hrest_ne
          have hlen : (rest.dropWhile isWsJs).length < n := by
            have hle : (rest.dropWhile isWsJs).length ≤ rest.length :=
              (List.dropWhile_sublist _).length_le
            have : rest.length < n := by simpa using Nat.lt_of_succ_lt_succ hf
            omega
          exact ih _ _ hlen h1' h2' h3' f hfm
      · intro f hfm
        simp only [splitWsAux, hw, if_false, Bool.false_eq_true, reduceIte] at hfm
        have h1' : rest = [] → (c :: cur) ≠ [] := fun _ => by simp
        have h2' : ∀ c', rest.head? = some c' → isWsJs c' = true →
            (c :: cur) ≠ [] := fun _ _ _ => by simp
        have h3' : ∀ c', rest.getLast? = some c' → isWsJs c' = false := by
          intro c' hc'
          have hrne : rest ≠ [] := by
            intro h0
            rw [h0] at hc'
            simp at hc'
          rw [← getLast?_cons_of_ne_nil c rest hrne] at hc'
          exact h3 c' hc'
        have hlen : rest.length < n := by simpa using Nat.lt_of_succ_lt_succ hf
        exact ih _ _ hlen h1' h2' h3' f hfm

theorem splitWs_no_empty_field (l : List Char)
    (hh : ∀ c, l.head? = some c → isWsJs c = false)
    (hl : ∀ c, l.getLast? = some c → isWsJs c = false)
    (hne : l ≠ []) :
    ∀ f ∈ splitWs l, f ≠ [] := by
  apply splitWsAux_fields_ne_nil (l.length + 1) l [] (Nat.lt_succ_self _)
  · intro h
    exact absurd h hne
  · intro c hc hw
    rw [hh c hc] at hw
    exact absurd hw (by simp)
  · exact hl

/-- C8 (amended): for every input whose trimmed form is nonempty, the
analyze path classifies it as a single word iff it consists of exactly
one whitespace-delimited token and contains none of the terminal
punctuation characters; the degenerate whitespace-only input, whose
trimmed form is empty and has zero tokens, is nevertheless classified
as a word (see the counterexample). -/
theorem analyze_word_classification (text : String)
    (h : trimChars text.data ≠ []) :
    isSingleWord text = true ↔
      specTokenCount (trimChars text.data) = 1 ∧
      hasTermPunct (trimChars text.data) = false := by
  have hfields : ∀ f ∈ splitWs (trimChars text.data), f ≠ [] :=
    splitWs_no_empty_field _ (fun c hc => trimChars_head _ _ hc)
      (fun c hc => trimChars_last _ _ hc) h
  have hcount : specTokenCount (trimChars text.data)
      = (splitWs (trimChars text.data)).length := by
    unfold specTokenCount
    congr 1
    apply List.filter_eq_self.mpr
    intro f hf
    simpa using hfields f hf
  unfold isSingleWord
  rw [hcount]
  constructor
  · intro hb
    rw [Bool.and_eq_true] at hb
    exact ⟨by simpa using hb.1, by simpa using hb.2⟩
  · rintro ⟨h1, h2⟩
    rw [Bool.and_eq_true]
    exact ⟨by simpa using h1, by simpa using h2⟩

/-- Counterexample to C8 as stated: the whitespace-only input trims to
the empty string, which has zero whitespace-delimited tokens, yet the
classification still reports a single word. -/
theorem analyze_whitespace_only_counterexample :
    isSingleWord "   " = true ∧
    specTokenCount (trimChars ("   ").data) = 0 ∧
    ¬(specTokenCount (trimChars ("   ").data) = 1) := by
  decide

/-- Witness for C8 (amended): the word example of the specification, and
the sentence example checked directly. -/
theorem analyze_word_classification_witness :
    (specTokenCount (trimChars ("serendipity").data) = 1 ∧
      hasTermPunct (trimChars ("serendipity").data) = false) ∧
    isSingleWord "The cat sat." = false :=
  ⟨(analyze_word_classification "serendipity" (by decide)).mp (by decide),
   by decide⟩

/-- C6 (amended): the recovery is layered in the stated order — when
the cleaned text parses as JSON, the result is the direct parse of the
cleaned text; only on failure is the brace extraction attempted; and a
failure always carries exactly the cleaned text, never dropping it.
However, step 3 extracts the substring from the first opening brace to
the LAST closing brace anywhere in the cleaned text (the greedy match),
not to the matching brace of a balanced object, so an input with a
balanced object followed by a stray closing brace fails both parses
(see the counterexample), while a balanced object followed by brace-free
prose is recovered. -/
theorem model_output_recovery :
    (∀ (s : String), jsonOk (cleanContent s) = true →
      parseModelOutput s = .parsedJson (cleanContent s)) ∧
    (∀ (s : String) (r : List Char), parseModelOutput s = .parseFailure r →
      r = cleanContent s) ∧
    (∀ (s : String) (sub : List Char), jsonOk (cleanContent s) = false →
      extractJson (cleanContent s) = some sub → jsonOk sub = true →
      parseModelOutput s = .parsedJson sub) ∧
    parseModelOutput "```json\n\x7b\"type\":\"word\"\x7d\n```"
      = .parsedJson ("\x7b\"type\":\"word\"\x7d\n").data ∧
    parseModelOutput "here is data: \x7b\"type\":\"word\"\x7d trailing"
      = .parsedJson ("\x7b\"type\":\"word\"\x7d").data ∧
    parseModelOutput "no json here" = .parseFailure ("no json here").data := by
  refine ⟨?_, ?_, ?_, by decide, by decide, by decide⟩
  · intro s hok
    unfold parseModelOutput
    simp [hok]
  · intro s r hr
    unfold parseModelOutput at hr
    by_cases hok : jsonOk (cleanContent s)
    · simp [hok] at hr
    · simp only [hok, Bool.false_eq_true, if_false, reduceIte] at hr
      rcases he : extractJson (cleanContent s) with _ | sub
      · rw [he] at hr
        simp only [ParseOutcome.parseFailure.injEq] at hr
        exact hr.symm
      · rw [he] at hr
        by_cases hs : jsonOk sub
        · simp [hs] at hr
        · simp only [hs, Bool.false_eq_true, if_false, reduceIte,
            ParseOutcome.parseFailure.injEq] at hr
          exact hr.symm
  · intro s sub hok he hsub
    unfold parseModelOutput
    simp [hok, he, hsub]

/-- Counterexample to C6 as stated: the cleaned input holds a parseable
balanced object followed by a stray closing brace; the claimed step 3
(first brace through its matching brace) would parse it, but the code's
greedy extraction runs to the stray last brace, its parse fails, and
the whole recovery returns the failure. -/
theorem model_output_greedy_counterexample :
    jsonOk ("\x7b\"a\":1\x7d").data = true ∧
    extractJson (cleanContent "x: \x7b\"a\":1\x7d \x7d")
      = some ("\x7b\"a\":1\x7d \x7d").data ∧
    parseModelOutput "x: \x7b\"a\":1\x7d \x7d"
      = .parseFailure (cleanContent "x: \x7b\"a\":1\x7d \x7d") := by
  refine ⟨by decide, by decide, by decide⟩

/-- Witness for C6 (amended) at concrete inputs for each layer. -/
theorem model_output_recovery_witness :
    parseModelOutput "\x7b\"a\":1\x7d" = .parsedJson ("\x7b\"a\":1\x7d").data ∧
    ("no json here").data = cleanContent "no json here" ∧
    parseModelOutput "pre \x7b\"a\":1\x7d post" = .parsedJson ("\x7b\"a\":1\x7d").data :=
  ⟨model_output_recovery.1 _ (by decide),
   model_output_recovery.2.1 _ _ (by decide),
   model_output_recovery.2.2.1 _ _ (by decide) (by decide) (by decide)⟩

end STS
